import Mathlib

/-!
Verification of the joystick-to-keyboard mapper (`joystick_to_keyboard.py`).

The translation engine is embedded shallowly: the global `pressed_keys` set
becomes a `Finset String`; every operation returns the updated set together
with the list of key-injector calls it performed and the list of error
reports it printed.  Injector failure (the pynput call raising) is modelled
by a boolean `injectorFails` parameter: the Python code catches the
exception and prints a message, so failure changes only the report list,
never the tracked state.
-/

namespace Joykado

/-- One call to the key-injector collaborator. -/
inductive Action where
  | press : String → Action
  | release : String → Action
deriving DecidableEq, Repr

/-- The logical key an injector call is about. -/
def Action.key : Action → String
  | .press k => k
  | .release k => k

/-- Outcome of running a piece of the translation engine: the new
`pressed_keys` set, the injector calls issued (in order), and the error
messages printed. -/
structure Result where
  pressed : Finset String
  calls : List Action
  reports : List String
deriving DecidableEq

/-- A no-op outcome. -/
def Result.pure (s : Finset String) : Result := ⟨s, [], []⟩

/-- Sequencing: run `f` on the state left by `r`, accumulating calls and
reports. -/
def andThen (r : Result) (f : Finset String → Result) : Result :=
  ⟨(f r.pressed).pressed, r.calls ++ (f r.pressed).calls, r.reports ++ (f r.pressed).reports⟩

/-- `press_key` from the source: `'enter'` is never tracked; an already
pressed key returns early with no injector call; otherwise the key is added
to `pressed_keys` *before* the injection attempt, and a failing injection is
caught and reported. -/
def press_key (injectorFails : Bool) (key : String) (pressed_keys : Finset String) : Result :=
  if key = "enter" then
    ⟨pressed_keys, [Action.press key],
      if injectorFails then ["Error pressing key " ++ key] else []⟩
  else if key ∈ pressed_keys then
    Result.pure pressed_keys
  else
    ⟨insert key pressed_keys, [Action.press key],
      if injectorFails then ["Error pressing key " ++ key] else []⟩

/-- `release_key` from the source: `'enter'` is released unconditionally and
returns before the membership test; any other key not in `pressed_keys`
returns early; otherwise it is removed and the release is injected. -/
def release_key (injectorFails : Bool) (key : String) (pressed_keys : Finset String) : Result :=
  if key = "enter" then
    ⟨pressed_keys, [Action.release key],
      if injectorFails then ["Error releasing enter"] else []⟩
  else if key ∉ pressed_keys then
    Result.pure pressed_keys
  else
    ⟨pressed_keys.erase key, [Action.release key],
      if injectorFails then ["Error releasing key " ++ key] else []⟩

/-- The axis deadzone threshold from the source (`deadzone = 0.3`). -/
def deadzone : ℚ := 3 / 10

/-- `process_hat` from the source: release all four directional keys, then
press according to the signs of `(x, y)`. -/
def process_hat (x y : Int) (s : Finset String) : Result :=
  let r := release_key false "w" s
  let r := andThen r (release_key false "s")
  let r := andThen r (release_key false "a")
  let r := andThen r (release_key false "d")
  let r :=
    if y = 1 then andThen r (press_key false "w")
    else if y = -1 then andThen r (press_key false "s")
    else r
  if x = -1 then andThen r (press_key false "a")
  else if x = 1 then andThen r (press_key false "d")
  else r

/-- `process_axis` from the source: collapse the value through the deadzone,
then on axis 1 drive `'w'`/`'s'` and on axis 0 drive `'a'`/`'d'`; other axes
do nothing. -/
def process_axis (axis : Int) (value : ℚ) (s : Finset String) : Result :=
  let v := if |value| < deadzone then 0 else value
  if axis = 1 then
    if v < -deadzone then andThen (press_key false "w" s) (release_key false "s")
    else if v > deadzone then andThen (press_key false "s" s) (release_key false "w")
    else andThen (release_key false "w" s) (release_key false "s")
  else if axis = 0 then
    if v < -deadzone then andThen (press_key false "a" s) (release_key false "d")
    else if v > deadzone then andThen (press_key false "d" s) (release_key false "a")
    else andThen (release_key false "a" s) (release_key false "d")
  else Result.pure s

/-- `BUTTON_MAPPING` from the source. -/
def BUTTON_MAPPING : Int → Option String := fun b =>
  if b = 0 then some "w"
  else if b = 1 then some "s"
  else if b = 2 then some "a"
  else if b = 3 then some "d"
  else if b = 4 then some "enter"
  else if b = 5 then some "enter"
  else none

/-- `process_button` from the source: unmapped buttons do nothing; a press of
`'enter'` is an immediate press-then-release; directional keys press on the
down transition and release on the up transition. -/
def process_button (button : Int) (is_pressed : Bool) (s : Finset String) : Result :=
  match BUTTON_MAPPING button with
  | none => Result.pure s
  | some key =>
    if is_pressed then
      if key = "enter" then andThen (press_key false "enter" s) (release_key false "enter")
      else press_key false key s
    else
      if key ≠ "enter" then release_key false key s
      else Result.pure s

/-- A raw device event, as routed by the dispatcher loop. -/
inductive Event where
  | hat : Int → Int → Event
  | axis : Int → ℚ → Event
  | button : Int → Bool → Event

/-- Dispatch one event to its translator. -/
def process_event : Event → Finset String → Result
  | .hat x y, s => process_hat x y s
  | .axis a v, s => process_axis a v s
  | .button b p, s => process_button b p s

/-- Run a sequence of events from a starting state, keeping the tracked set. -/
def run_events : List Event → Finset String → Finset String
  | [], s => s
  | e :: es, s => run_events es (process_event e s).pressed

/-- Release each key of a list in turn (the body of the shutdown loop). -/
def release_list : List String → Finset String → Result
  | [], s => Result.pure s
  | k :: ks, s => andThen (release_key false k s) (release_list ks)

/-- The shutdown drain from `main`: `for key in list(pressed_keys): release_key(key)`.
The snapshot order of `list(...)` is implementation-defined in the source; it is
modelled as the sorted enumeration of the set. -/
def drain (s : Finset String) : Result := release_list (s.sort (· ≤ ·)) s

/-- The four directional identifiers the translators can hold. -/
def directional : Finset String := {"w", "s", "a", "d"}

/-! ### Normal forms for the tracker operations -/

lemma andThen_pressed (r : Result) (f : Finset String → Result) :
    (andThen r f).pressed = (f r.pressed).pressed := rfl

lemma andThen_calls (r : Result) (f : Finset String → Result) :
    (andThen r f).calls = r.calls ++ (f r.pressed).calls := rfl

lemma press_key_pressed_of_ne (f : Bool) (k : String) (s : Finset String)
    (h : k ≠ "enter") : (press_key f k s).pressed = insert k s := by
  unfold press_key
  rw [if_neg h]
  by_cases hk : k ∈ s
  · rw [if_pos hk]
    exact (Finset.insert_eq_self.mpr hk).symm
  · rw [if_neg hk]

lemma release_key_pressed_of_ne (f : Bool) (k : String) (s : Finset String)
    (h : k ≠ "enter") : (release_key f k s).pressed = s.erase k := by
  unfold release_key
  rw [if_neg h]
  by_cases hk : k ∈ s
  · rw [if_neg (by simpa using hk)]
  · rw [if_pos hk]
    exact (Finset.erase_eq_self.mpr hk).symm

lemma press_key_enter_pressed (f : Bool) (s : Finset String) :
    (press_key f "enter" s).pressed = s := rfl

lemma release_key_enter_pressed (f : Bool) (s : Finset String) :
    (release_key f "enter" s).pressed = s := rfl

lemma press_key_of_mem (f : Bool) (k : String) (s : Finset String)
    (hk : k ≠ "enter") (hm : k ∈ s) : press_key f k s = Result.pure s := by
  unfold press_key
  rw [if_neg hk, if_pos hm]

lemma press_key_of_not_mem (f : Bool) (k : String) (s : Finset String)
    (hk : k ≠ "enter") (hm : k ∉ s) :
    press_key f k s =
      ⟨insert k s, [Action.press k], if f then ["Error pressing key " ++ k] else []⟩ := by
  unfold press_key
  rw [if_neg hk, if_neg hm]

lemma release_key_of_not_mem (f : Bool) (k : String) (s : Finset String)
    (hk : k ≠ "enter") (hm : k ∉ s) : release_key f k s = Result.pure s := by
  unfold release_key
  rw [if_neg hk, if_pos hm]

lemma release_key_of_mem (f : Bool) (k : String) (s : Finset String)
    (hk : k ≠ "enter") (hm : k ∈ s) :
    release_key f k s =
      ⟨s.erase k, [Action.release k], if f then ["Error releasing key " ++ k] else []⟩ := by
  unfold release_key
  rw [if_neg hk, if_neg (by simpa using hm)]

lemma press_key_calls_key (f : Bool) (k : String) (s : Finset String) :
    ∀ c ∈ (press_key f k s).calls, c.key = k := by
  unfold press_key
  split_ifs <;> simp [Result.pure, Action.key]

lemma release_key_calls_key (f : Bool) (k : String) (s : Finset String) :
    ∀ c ∈ (release_key f k s).calls, c.key = k := by
  unfold release_key
  split_ifs <;> simp [Result.pure, Action.key]

lemma andThen_calls_key (P : String → Prop) (r : Result) (f : Finset String → Result)
    (hr : ∀ c ∈ r.calls, P c.key) (hf : ∀ c ∈ (f r.pressed).calls, P c.key) :
    ∀ c ∈ (andThen r f).calls, P c.key := by
  intro c hc
  rcases List.mem_append.mp (by simpa [andThen_calls] using hc) with h | h
  · exact hr c h
  · exact hf c h

/-! ### Normal forms for the axis translator -/

lemma process_axis_one_pressed (v : ℚ) (s : Finset String) :
    (process_axis 1 v s).pressed =
      if v < -(3 / 10) then (insert "w" s).erase "s"
      else if 3 / 10 < v then (insert "s" s).erase "w"
      else (s.erase "w").erase "s" := by
  unfold process_axis deadzone
  rw [if_pos (show (1 : Int) = 1 from rfl)]
  by_cases hdz : |v| < (3 : ℚ) / 10
  · obtain ⟨hlo, hhi⟩ := abs_lt.mp hdz
    rw [if_pos hdz]
    rw [if_neg (show ¬((0 : ℚ) < -(3 / 10)) from by norm_num),
      if_neg (show ¬((0 : ℚ) > 3 / 10) from by norm_num),
      if_neg (show ¬(v < -(3 / 10)) from by linarith),
      if_neg (show ¬((3 : ℚ) / 10 < v) from by linarith)]
    simp [andThen_pressed, release_key_pressed_of_ne]
  · rw [if_neg hdz]
    split_ifs with h1 h2 <;>
      simp [andThen_pressed, press_key_pressed_of_ne, release_key_pressed_of_ne]

lemma process_axis_zero_pressed (v : ℚ) (s : Finset String) :
    (process_axis 0 v s).pressed =
      if v < -(3 / 10) then (insert "a" s).erase "d"
      else if 3 / 10 < v then (insert "d" s).erase "a"
      else (s.erase "a").erase "d" := by
  unfold process_axis deadzone
  rw [if_neg (show ¬((0 : Int) = 1) from by decide), if_pos (show (0 : Int) = 0 from rfl)]
  by_cases hdz : |v| < (3 : ℚ) / 10
  · obtain ⟨hlo, hhi⟩ := abs_lt.mp hdz
    rw [if_pos hdz]
    rw [if_neg (show ¬((0 : ℚ) < -(3 / 10)) from by norm_num),
      if_neg (show ¬((0 : ℚ) > 3 / 10) from by norm_num),
      if_neg (show ¬(v < -(3 / 10)) from by linarith),
      if_neg (show ¬((3 : ℚ) / 10 < v) from by linarith)]
    simp [andThen_pressed, release_key_pressed_of_ne]
  · rw [if_neg hdz]
    split_ifs with h1 h2 <;>
      simp [andThen_pressed, press_key_pressed_of_ne, release_key_pressed_of_ne]

lemma process_axis_one_calls_key (v : ℚ) (s : Finset String) :
    ∀ c ∈ (process_axis 1 v s).calls, c.key = "w" ∨ c.key = "s" := by
  unfold process_axis deadzone
  rw [if_pos (show (1 : Int) = 1 from rfl)]
  split_ifs <;>
    first
      | exact andThen_calls_key (fun k => k = "w" ∨ k = "s") _ _
          (fun c hc => Or.inl (press_key_calls_key _ _ _ c hc))
          (fun c hc => Or.inr (release_key_calls_key _ _ _ c hc))
      | exact andThen_calls_key (fun k => k = "w" ∨ k = "s") _ _
          (fun c hc => Or.inr (press_key_calls_key _ _ _ c hc))
          (fun c hc => Or.inl (release_key_calls_key _ _ _ c hc))
      | exact andThen_calls_key (fun k => k = "w" ∨ k = "s") _ _
          (fun c hc => Or.inl (release_key_calls_key _ _ _ c hc))
          (fun c hc => Or.inr (release_key_calls_key _ _ _ c hc))

lemma process_axis_zero_calls_key (v : ℚ) (s : Finset String) :
    ∀ c ∈ (process_axis 0 v s).calls, c.key = "a" ∨ c.key = "d" := by
  unfold process_axis deadzone
  rw [if_neg (show ¬((0 : Int) = 1) from by decide), if_pos (show (0 : Int) = 0 from rfl)]
  split_ifs <;>
    first
      | exact andThen_calls_key (fun k => k = "a" ∨ k = "d") _ _
          (fun c hc => Or.inl (press_key_calls_key _ _ _ c hc))
          (fun c hc => Or.inr (release_key_calls_key _ _ _ c hc))
      | exact andThen_calls_key (fun k => k = "a" ∨ k = "d") _ _
          (fun c hc => Or.inr (press_key_calls_key _ _ _ c hc))
          (fun c hc => Or.inl (release_key_calls_key _ _ _ c hc))
      | exact andThen_calls_key (fun k => k = "a" ∨ k = "d") _ _
          (fun c hc => Or.inl (release_key_calls_key _ _ _ c hc))
          (fun c hc => Or.inr (release_key_calls_key _ _ _ c hc))

lemma process_axis_other (a : Int) (v : ℚ) (s : Finset String)
    (h0 : a ≠ 0) (h1 : a ≠ 1) : process_axis a v s = Result.pure s := by
  unfold process_axis
  rw [if_neg h1, if_neg h0]

/-! ### The reachable-state invariant: only directional keys are tracked -/

lemma process_hat_pressed_subset (x y : Int) (s : Finset String) (hs : s ⊆ directional) :
    (process_hat x y s).pressed ⊆ directional := by
  unfold process_hat
  split_ifs <;>
    simp [andThen_pressed, press_key_pressed_of_ne, release_key_pressed_of_ne] <;>
    (repeat
      first
        | exact hs
        | refine (Finset.erase_subset _ _).trans ?_
        | refine Finset.insert_subset_iff.mpr ⟨by decide, ?_⟩)

lemma process_axis_pressed_subset (a : Int) (v : ℚ) (s : Finset String) (hs : s ⊆ directional) :
    (process_axis a v s).pressed ⊆ directional := by
  by_cases h1 : a = 1
  · subst h1
    rw [process_axis_one_pressed]
    split_ifs <;>
      (repeat
        first
          | exact hs
          | refine (Finset.erase_subset _ _).trans ?_
          | refine Finset.insert_subset_iff.mpr ⟨by decide, ?_⟩)
  · by_cases h0 : a = 0
    · subst h0
      rw [process_axis_zero_pressed]
      split_ifs <;>
        (repeat
          first
            | exact hs
            | refine (Finset.erase_subset _ _).trans ?_
            | refine Finset.insert_subset_iff.mpr ⟨by decide, ?_⟩)
    · rw [process_axis_other a v s h0 h1]
      exact hs

lemma process_button_pressed_subset (b : Int) (p : Bool) (s : Finset String)
    (hs : s ⊆ directional) : (process_button b p s).pressed ⊆ directional := by
  unfold process_button BUTTON_MAPPING
  cases p <;> split_ifs <;>
    simp [andThen_pressed, press_key_pressed_of_ne, release_key_pressed_of_ne,
      press_key_enter_pressed, release_key_enter_pressed, Result.pure] <;>
    (repeat
      first
        | exact hs
        | refine (Finset.erase_subset _ _).trans ?_
        | refine Finset.insert_subset_iff.mpr ⟨by decide, ?_⟩)

lemma run_events_subset (evs : List Event) (s : Finset String) (hs : s ⊆ directional) :
    run_events evs s ⊆ directional := by
  induction evs generalizing s with
  | nil => exact hs
  | cons e es ih =>
    refine ih (process_event e s).pressed ?_
    cases e with
    | hat x y => exact process_hat_pressed_subset x y s hs
    | axis a v => exact process_axis_pressed_subset a v s hs
    | button b p => exact process_button_pressed_subset b p s hs

/-! ### The shutdown drain -/

lemma release_list_spec (keys : List String) (s : Finset String)
    (hnd : keys.Nodup) (hmem : ∀ k ∈ keys, k ∈ s) (hent : ∀ k ∈ keys, k ≠ "enter") :
    (release_list keys s).pressed = s \ keys.toFinset ∧
    (release_list keys s).calls = keys.map Action.release := by
  induction keys generalizing s with
  | nil => simp [release_list, Result.pure]
  | cons k ks ih =>
    have hk : k ∈ s := hmem k (List.mem_cons_self k ks)
    have hke : k ≠ "enter" := hent k (List.mem_cons_self k ks)
    have hnotin : k ∉ ks := (List.nodup_cons.mp hnd).1
    have step : release_list (k :: ks) s =
        andThen (release_key false k s) (release_list ks) := rfl
    obtain ⟨ihp, ihc⟩ := ih (s.erase k) (List.nodup_cons.mp hnd).2
      (fun q hq => Finset.mem_erase.mpr
        ⟨fun he => hnotin (he ▸ hq), hmem q (List.mem_cons_of_mem k hq)⟩)
      (fun q hq => hent q (List.mem_cons_of_mem k hq))
    rw [step, release_key_of_mem false k s hke hk] at *
    constructor
    · rw [andThen_pressed]
      show (release_list ks (s.erase k)).pressed = _
      rw [ihp]
      ext q
      simp only [Finset.mem_sdiff, Finset.mem_erase, List.toFinset_cons, Finset.mem_insert,
        List.mem_toFinset]
      tauto
    · rw [andThen_calls]
      show _ ++ (release_list ks (s.erase k)).calls = _
      rw [ihc]
      rfl

lemma drain_spec (s : Finset String) (hs : s ⊆ directional) :
    (drain s).pressed = ∅ ∧
    (drain s).calls = (s.sort (· ≤ ·)).map Action.release := by
  have hnd : (s.sort (· ≤ ·)).Nodup := Finset.sort_nodup _ s
  have hmem : ∀ k ∈ s.sort (· ≤ ·), k ∈ s := fun k hk => (Finset.mem_sort _).mp hk
  have hent : ∀ k ∈ s.sort (· ≤ ·), k ≠ "enter" := by
    intro k hk he
    have : ("enter" : String) ∈ directional := hs (he ▸ (Finset.mem_sort _).mp hk)
    revert this
    decide
  obtain ⟨hp, hc⟩ := release_list_spec (s.sort (· ≤ ·)) s hnd hmem hent
  unfold drain
  refine ⟨?_, hc⟩
  rw [hp, Finset.sort_toFinset, Finset.sdiff_self]

/-! ### Claim theorems -/

/-- C1, counterexample: the claim says a failing injector press leaves the key
out of `KeyState` and the state as before.  In the source, `press_key('w')`
from the empty state with a failing injector reports the error but has already
added `'w'` to `pressed_keys`, so `'w'` is held and the state changed. -/
theorem C1_counterexample :
    "w" ∉ (∅ : Finset String) ∧
    (press_key true "w" (∅ : Finset String)).reports ≠ [] ∧
    "w" ∈ (press_key true "w" (∅ : Finset String)).pressed ∧
    (press_key true "w" (∅ : Finset String)).pressed ≠ (∅ : Finset String) :=
  ⟨by decide, by decide, by decide, by decide⟩

/-- C1, amended: when the injector press fails during `press_key(k)` for an
unheld key `k ≠ 'enter'`, the tracker reports the failure but takes the
optimistic path: `k` is in `KeyState` afterwards, exactly as when the
injection succeeds. -/
theorem C1_press_failure_optimistic (k : String) (s : Finset String)
    (hk : k ≠ "enter") (hs : k ∉ s) :
    (press_key true k s).reports = ["Error pressing key " ++ k] ∧
    k ∈ (press_key true k s).pressed ∧
    (press_key true k s).pressed = (press_key false k s).pressed := by
  rw [press_key_of_not_mem true k s hk hs, press_key_of_not_mem false k s hk hs]
  exact ⟨rfl, Finset.mem_insert_self k s, rfl⟩

/-- C1 witness: the amended statement at `k = 'w'`, `s = ∅`. -/
theorem C1_press_failure_optimistic_witness :
    (press_key true "w" (∅ : Finset String)).reports = ["Error pressing key " ++ "w"] ∧
    "w" ∈ (press_key true "w" (∅ : Finset String)).pressed ∧
    (press_key true "w" (∅ : Finset String)).pressed =
      (press_key false "w" (∅ : Finset String)).pressed :=
  C1_press_failure_optimistic "w" ∅ (by decide) (by decide)

/-- C2, counterexample: the claim says `request_release(k)` on an unheld key
issues zero injector calls for every key, including `'enter'`.  In the source,
`release_key('enter')` issues an injector release unconditionally even though
`'enter'` is never in `pressed_keys`. -/
theorem C2_counterexample :
    "enter" ∉ (∅ : Finset String) ∧
    (release_key false "enter" (∅ : Finset String)).calls ≠ [] :=
  ⟨by decide, by decide⟩

/-- C2, amended: for every key `k ≠ 'enter'`, releasing an unheld `k` is a
no-op (zero injector calls, state unchanged); `release_key('enter')` instead
always issues exactly one injector release call and never changes `KeyState`. -/
theorem C2_release_unheld (f : Bool) (k : String) (s : Finset String)
    (hk : k ≠ "enter") (hs : k ∉ s) :
    ((release_key f k s).calls = [] ∧ (release_key f k s).pressed = s) ∧
    ((release_key f "enter" s).calls = [Action.release "enter"] ∧
      (release_key f "enter" s).pressed = s) := by
  rw [release_key_of_not_mem f k s hk hs]
  exact ⟨⟨rfl, rfl⟩, by simp [release_key]⟩

/-- C2 witness: the amended statement at `k = 'a'`, `s = ∅`. -/
theorem C2_release_unheld_witness :
    ((release_key false "a" (∅ : Finset String)).calls = [] ∧
      (release_key false "a" (∅ : Finset String)).pressed = ∅) ∧
    ((release_key false "enter" (∅ : Finset String)).calls = [Action.release "enter"] ∧
      (release_key false "enter" (∅ : Finset String)).pressed = ∅) :=
  C2_release_unheld false "a" ∅ (by decide) (by decide)

/-- C3: pressing a directional key twice in a row issues exactly one injector
press call — the second call finds the key already in `KeyState` and performs
no injection and no state change. -/
theorem C3_press_idempotent (f1 f2 : Bool) (k : String) (s : Finset String)
    (hk : k = "w" ∨ k = "s" ∨ k = "a" ∨ k = "d") (hs : k ∉ s) :
    (press_key f1 k s).calls = [Action.press k] ∧
    (press_key f2 k (press_key f1 k s).pressed).calls = [] ∧
    (press_key f2 k (press_key f1 k s).pressed).pressed = (press_key f1 k s).pressed := by
  have hne : k ≠ "enter" := by
    rcases hk with h | h | h | h <;> subst h <;> decide
  rw [press_key_of_not_mem f1 k s hne hs]
  rw [press_key_of_mem f2 k _ hne (Finset.mem_insert_self k s)]
  exact ⟨rfl, rfl, rfl⟩

/-- C3 witness: the statement at `k = 'w'`, `s = ∅`. -/
theorem C3_press_idempotent_witness :
    (press_key false "w" (∅ : Finset String)).calls = [Action.press "w"] ∧
    (press_key false "w" (press_key false "w" (∅ : Finset String)).pressed).calls = [] ∧
    (press_key false "w" (press_key false "w" (∅ : Finset String)).pressed).pressed =
      (press_key false "w" (∅ : Finset String)).pressed :=
  C3_press_idempotent false false "w" ∅ (Or.inl rfl) (by decide)

/-- C4: after `process_hat (x, y)`, from any prior state, the held directional
keys exactly match the signs of `(x, y)`: `'w'` (Up) held iff `y = 1`, `'s'`
(Down) iff `y = -1`, `'a'` (Left) iff `x = -1`, `'d'` (Right) iff `x = 1`;
consequently at most one of Up/Down and at most one of Left/Right is held.
The equivalences hold for all integer `x, y`, in particular on `{-1, 0, 1}`. -/
theorem C4_hat_matches_signs (x y : Int) (s : Finset String) :
    (("w" ∈ (process_hat x y s).pressed ↔ y = 1) ∧
      ("s" ∈ (process_hat x y s).pressed ↔ y = -1)) ∧
    (("a" ∈ (process_hat x y s).pressed ↔ x = -1) ∧
      ("d" ∈ (process_hat x y s).pressed ↔ x = 1)) ∧
    ¬("w" ∈ (process_hat x y s).pressed ∧ "s" ∈ (process_hat x y s).pressed) ∧
    ¬("a" ∈ (process_hat x y s).pressed ∧ "d" ∈ (process_hat x y s).pressed) := by
  unfold process_hat
  split_ifs <;>
    simp_all [andThen_pressed, press_key_pressed_of_ne, release_key_pressed_of_ne,
      Finset.mem_insert, Finset.mem_erase]

/-- C5: for every vertical axis event `process_axis(1, v)` and every prior
state, `'w'` (Up) ends held exactly when `v < -0.3` and `'s'` (Down) exactly
when `v > 0.3`, never both.  In particular a value in the deadzone
`(-0.3, 0.3)` releases both, `v > 0.3` yields Down held and Up released, and
`v < -0.3` yields Up held and Down released. -/
theorem C5_vertical_axis (v : ℚ) (s : Finset String) :
    ("w" ∈ (process_axis 1 v s).pressed ↔ v < -(3 / 10)) ∧
    ("s" ∈ (process_axis 1 v s).pressed ↔ 3 / 10 < v) ∧
    ¬("w" ∈ (process_axis 1 v s).pressed ∧ "s" ∈ (process_axis 1 v s).pressed) := by
  rw [process_axis_one_pressed]
  split_ifs with h1 h2 <;>
    simp_all [Finset.mem_insert, Finset.mem_erase]
  all_goals linarith

/-- C10: `process_axis(1, v)` leaves `'a'` (Left) and `'d'` (Right) untouched
and issues no injector call for them; symmetrically `process_axis(0, v)`
leaves `'w'` (Up) and `'s'` (Down) untouched; and `process_axis(i, v)` for
`i ∉ {0, 1}` changes nothing and issues no injector calls. -/
theorem C10_axis_frame (i : Int) (v : ℚ) (s : Finset String) (h0 : i ≠ 0) (h1 : i ≠ 1) :
    (("a" ∈ (process_axis 1 v s).pressed ↔ "a" ∈ s) ∧
      ("d" ∈ (process_axis 1 v s).pressed ↔ "d" ∈ s) ∧
      ∀ c ∈ (process_axis 1 v s).calls, c.key ≠ "a" ∧ c.key ≠ "d") ∧
    (("w" ∈ (process_axis 0 v s).pressed ↔ "w" ∈ s) ∧
      ("s" ∈ (process_axis 0 v s).pressed ↔ "s" ∈ s) ∧
      ∀ c ∈ (process_axis 0 v s).calls, c.key ≠ "w" ∧ c.key ≠ "s") ∧
    ((process_axis i v s).pressed = s ∧ (process_axis i v s).calls = []) := by
  refine ⟨⟨?_, ?_, ?_⟩, ⟨?_, ?_, ?_⟩, ?_⟩
  · rw [process_axis_one_pressed]
    split_ifs <;> simp [Finset.mem_insert, Finset.mem_erase]
  · rw [process_axis_one_pressed]
    split_ifs <;> simp [Finset.mem_insert, Finset.mem_erase]
  · intro c hc
    rcases process_axis_one_calls_key v s c hc with h | h <;> rw [h] <;>
      exact ⟨by decide, by decide⟩
  · rw [process_axis_zero_pressed]
    split_ifs <;> simp [Finset.mem_insert, Finset.mem_erase]
  · rw [process_axis_zero_pressed]
    split_ifs <;> simp [Finset.mem_insert, Finset.mem_erase]
  · intro c hc
    rcases process_axis_zero_calls_key v s c hc with h | h <;> rw [h] <;>
      exact ⟨by decide, by decide⟩
  · rw [process_axis_other i v s h0 h1]
    exact ⟨rfl, rfl⟩

/-- C6: from the initial empty state, no sequence of hat, axis, and button
events ever puts `'enter'` (Confirm) into `KeyState`. -/
theorem C6_confirm_never_held (evs : List Event) :
    "enter" ∉ run_events evs (∅ : Finset String) := by
  intro h
  have hmem := run_events_subset evs ∅ (Finset.empty_subset _) h
  revert hmem
  decide

/-- C7: for button 4 or 5, the press transition emits exactly one Confirm
press immediately followed by one Confirm release leaving `KeyState`
unchanged, and the release transition is a no-op. -/
theorem C7_confirm_button (b : Int) (s : Finset String) (hb : b = 4 ∨ b = 5) :
    (process_button b true s).calls = [Action.press "enter", Action.release "enter"] ∧
    (process_button b true s).pressed = s ∧
    (process_button b false s).calls = [] ∧
    (process_button b false s).pressed = s := by
  rcases hb with h | h <;> subst h <;> exact ⟨rfl, rfl, rfl, rfl⟩

/-- C7 witness: the statement at `b = 4`, `s = ∅`. -/
theorem C7_confirm_button_witness :
    (process_button 4 true (∅ : Finset String)).calls =
      [Action.press "enter", Action.release "enter"] ∧
    (process_button 4 true (∅ : Finset String)).pressed = ∅ ∧
    (process_button 4 false (∅ : Finset String)).calls = [] ∧
    (process_button 4 false (∅ : Finset String)).pressed = ∅ :=
  C7_confirm_button 4 ∅ (Or.inl rfl)

/-- C8: draining any reachable `KeyState` empties it and issues exactly one
injector release call per previously-held key (the calls are the releases of
an enumeration of the held set, so their number is the set's cardinality);
draining the empty state issues no calls, and draining twice equals draining
once. -/
theorem C8_drain_completeness (evs : List Event) :
    (drain (run_events evs (∅ : Finset String))).pressed = ∅ ∧
    (drain (run_events evs (∅ : Finset String))).calls =
      ((run_events evs (∅ : Finset String)).sort (· ≤ ·)).map Action.release ∧
    (drain (run_events evs (∅ : Finset String))).calls.length =
      (run_events evs (∅ : Finset String)).card ∧
    (drain (∅ : Finset String)).calls = [] ∧
    (drain (drain (run_events evs (∅ : Finset String))).pressed).calls = [] ∧
    (drain (drain (run_events evs (∅ : Finset String))).pressed).pressed = ∅ := by
  have hsub := run_events_subset evs ∅ (Finset.empty_subset _)
  obtain ⟨hp, hc⟩ := drain_spec _ hsub
  obtain ⟨hep, hec⟩ := drain_spec (∅ : Finset String) (Finset.empty_subset _)
  have hecnil : (drain (∅ : Finset String)).calls = [] := by
    rw [hec, Finset.sort_empty]
    rfl
  refine ⟨hp, hc, ?_, hecnil, ?_, ?_⟩
  · rw [hc, List.length_map, Finset.length_sort]
  · rw [hp]
    exact hecnil
  · rw [hp]
    exact hep

/-- C9 (implicit): from the initial empty state, every reachable `KeyState`
is a subset of the four directional identifiers `{'w', 's', 'a', 'd'}`. -/
theorem C9_only_directional (evs : List Event) :
    run_events evs (∅ : Finset String) ⊆ directional :=
  run_events_subset evs ∅ (Finset.empty_subset _)

/-- C10 witness: the statement at `i = 2`, `v = 0`, `s = ∅`. -/
theorem C10_axis_frame_witness :
    (("a" ∈ (process_axis 1 0 (∅ : Finset String)).pressed ↔ "a" ∈ (∅ : Finset String)) ∧
      ("d" ∈ (process_axis 1 0 (∅ : Finset String)).pressed ↔ "d" ∈ (∅ : Finset String)) ∧
      ∀ c ∈ (process_axis 1 0 (∅ : Finset String)).calls, c.key ≠ "a" ∧ c.key ≠ "d") ∧
    (("w" ∈ (process_axis 0 0 (∅ : Finset String)).pressed ↔ "w" ∈ (∅ : Finset String)) ∧
      ("s" ∈ (process_axis 0 0 (∅ : Finset String)).pressed ↔ "s" ∈ (∅ : Finset String)) ∧
      ∀ c ∈ (process_axis 0 0 (∅ : Finset String)).calls, c.key ≠ "w" ∧ c.key ≠ "s") ∧
    ((process_axis 2 0 (∅ : Finset String)).pressed = ∅ ∧
      (process_axis 2 0 (∅ : Finset String)).calls = []) :=
  C10_axis_frame 2 0 ∅ (by decide) (by decide)

end Joykado
